import Mathlib

/-!
Verification of the TI variable-file container codec (`src/vars.rs`).

The embedding models bytes as `Nat` values below 256 and Rust's fixed-size
byte arrays as lists whose length is fixed by the well-formedness predicate
`File.WF`.  Rust strings are modelled as lists of Unicode scalar values, with
an explicit executable UTF-8 encoder and validating decoder mirroring
`str::bytes` and `String::from_utf8`.
-/

namespace TiVars

/-! ## Layout constants (from `src/vars.rs`) -/

def FILE_SIGNATURE_SIZE : Nat := 0x0B
def FILE_COMMENT_SIZE : Nat := 0x2A
def FILE_VARIABLE_LENGTH_SIZE : Nat := 0x02
def FILE_CHECKSUM_SIZE : Nat := 0x02

def SIGNATURE_OFFSET : Nat := 0x00
def COMMENT_OFFSET : Nat := SIGNATURE_OFFSET + FILE_SIGNATURE_SIZE
def VARIABLE_LENGTH_OFFSET : Nat := COMMENT_OFFSET + FILE_COMMENT_SIZE
def HEADER_SIZE : Nat := FILE_SIGNATURE_SIZE + FILE_COMMENT_SIZE + FILE_VARIABLE_LENGTH_SIZE
def VARIABLE_OFFSET : Nat := VARIABLE_LENGTH_OFFSET + FILE_VARIABLE_LENGTH_SIZE

/-- The fixed signature `**TI83F*` followed by `0x1A`, `0x0A`, `0x00`
(documented on `File::signature`). -/
def SIGNATURE : List Nat :=
  [0x2A, 0x2A, 0x54, 0x49, 0x38, 0x33, 0x46, 0x2A, 0x1A, 0x0A, 0x00]

/-! ## Little-endian 16-bit helpers (`u16::from_le_bytes` / `to_le_bytes`) -/

def u16_from_le_bytes (bs : List Nat) : Nat :=
  bs.getD 0 0 + 256 * bs.getD 1 0

def u16_to_le_bytes (n : Nat) : List Nat :=
  [n % 256, n / 256 % 256]

/-! ## Iterator position (`Iterator::position`) -/

/-- `iter().position(p)`: index of the first element satisfying `p`. -/
def iterPosition (p : Nat → Bool) : List Nat → Option Nat
  | [] => none
  | b :: rest => if p b then some 0 else (iterPosition p rest).map (· + 1)

/-! ## UTF-8 model

Rust `&str` values are modelled as lists of Unicode scalar values.
`utf8Encode` mirrors `str::bytes`; `utf8Decode` mirrors the validation done
by `String::from_utf8` (rejecting overlong forms, surrogates, out-of-range
code points and truncated sequences). -/

/-- A Unicode scalar value: any code point except the surrogate range. -/
def ValidCp (c : Nat) : Prop :=
  c < 0x110000 ∧ ¬(0xD800 ≤ c ∧ c < 0xE000)

instance (c : Nat) : Decidable (ValidCp c) := by
  unfold ValidCp; infer_instance

/-- UTF-8 encoding of a single scalar value. -/
def utf8EncodeCp (c : Nat) : List Nat :=
  if c < 0x80 then [c]
  else if c < 0x800 then [0xC0 + c / 0x40, 0x80 + c % 0x40]
  else if c < 0x10000 then
    [0xE0 + c / 0x1000, 0x80 + c / 0x40 % 0x40, 0x80 + c % 0x40]
  else
    [0xF0 + c / 0x40000, 0x80 + c / 0x1000 % 0x40, 0x80 + c / 0x40 % 0x40,
      0x80 + c % 0x40]

/-- UTF-8 encoding of a string (`str::bytes`). -/
def utf8Encode (s : List Nat) : List Nat :=
  (s.map utf8EncodeCp).flatten

/-- One step of UTF-8 validation: decode the first scalar value of the
byte list and return it with the remaining bytes, or `none` when the list
is empty or starts with an invalid sequence (continuation byte, overlong
form, surrogate, out-of-range value or truncated sequence). -/
def utf8DecodeOne : List Nat → Option (Nat × List Nat)
  | [] => none
  | b :: rest =>
    if b < 0x80 then some (b, rest)
    else if b < 0xC2 then none
    else if b < 0xE0 then
      match rest with
      | b1 :: rest2 =>
        if 0x80 ≤ b1 ∧ b1 < 0xC0 then
          some ((b - 0xC0) * 0x40 + (b1 - 0x80), rest2)
        else none
      | [] => none
    else if b < 0xF0 then
      match rest with
      | b1 :: b2 :: rest3 =>
        if (0x80 ≤ b1 ∧ b1 < 0xC0) ∧ (0x80 ≤ b2 ∧ b2 < 0xC0) then
          let c := (b - 0xE0) * 0x1000 + (b1 - 0x80) * 0x40 + (b2 - 0x80)
          if 0x800 ≤ c ∧ ¬(0xD800 ≤ c ∧ c < 0xE000) then some (c, rest3)
          else none
        else none
      | _ => none
    else if b < 0xF5 then
      match rest with
      | b1 :: b2 :: b3 :: rest4 =>
        if (0x80 ≤ b1 ∧ b1 < 0xC0) ∧ (0x80 ≤ b2 ∧ b2 < 0xC0) ∧
            (0x80 ≤ b3 ∧ b3 < 0xC0) then
          let c := (b - 0xF0) * 0x40000 + (b1 - 0x80) * 0x1000 +
            (b2 - 0x80) * 0x40 + (b3 - 0x80)
          if 0x10000 ≤ c ∧ c < 0x110000 then some (c, rest4)
          else none
        else none
      | _ => none
    else none

/-- Iterated UTF-8 validation, with a fuel argument that makes the
recursion structural; each step strictly shortens the list, so any fuel of
at least the list's length gives the fixpoint (`utf8DecodeAux_congr`). -/
def utf8DecodeAux : Nat → List Nat → Option (List Nat)
  | _, [] => some []
  | 0, _ :: _ => none
  | fuel + 1, b :: rest =>
    match utf8DecodeOne (b :: rest) with
    | none => none
    | some (c, rest') => (utf8DecodeAux fuel rest').map (fun s => c :: s)

/-- Validating UTF-8 decoder (`String::from_utf8`): returns the scalar
values, or `none` on invalid input. -/
def utf8Decode (l : List Nat) : Option (List Nat) :=
  utf8DecodeAux l.length l

/-- `str::trim_end_matches(' ')` on the scalar-value view: drop trailing
spaces. -/
def rtrimSpaces (s : List Nat) : List Nat :=
  (s.reverse.dropWhile (fun c => c == 32)).reverse

/-! ## Variable (payload wrapper)

`Variable<T>` wraps one payload.  `Variable::bytes` is left `todo!()` in the
source; the spec (§9) treats the payload serializer as an external
collaborator contract `bytes() -> sequence of u8`.  Modelled from the spec:
the payload is identified with its serialized byte sequence. -/

structure Variable where
  payload : List Nat
deriving DecidableEq, Repr

/-- Modelled from the spec: `Variable::bytes` (a `todo!()` in the source)
returns the payload's serialized form. -/
def Variable.bytes (v : Variable) : List Nat := v.payload

/-! ## File -/

/-- `File<T>`: signature, comment, variable length, variable, checksum.
The Rust fields are fixed-size byte arrays; here lists, with lengths fixed
by `File.WF`.  The `variable` field is named `var` (`variable` is reserved
in Lean). -/
structure File where
  signature : List Nat
  comment : List Nat
  variable_length : List Nat
  var : Variable
  checksum : List Nat
deriving DecidableEq, Repr

/-- Well-formedness: field lengths match the Rust array sizes and all bytes
are in range. -/
def File.WF (f : File) : Prop :=
  f.signature.length = FILE_SIGNATURE_SIZE ∧ (∀ b ∈ f.signature, b < 256) ∧
  f.comment.length = FILE_COMMENT_SIZE ∧ (∀ b ∈ f.comment, b < 256) ∧
  f.variable_length.length = FILE_VARIABLE_LENGTH_SIZE ∧
  (∀ b ∈ f.variable_length, b < 256) ∧
  (∀ b ∈ f.var.payload, b < 256) ∧
  f.checksum.length = FILE_CHECKSUM_SIZE ∧ (∀ b ∈ f.checksum, b < 256)

instance (f : File) : Decidable f.WF := by
  unfold File.WF; infer_instance

/-- `File::bytes`: signature, comment, stored length bytes, payload bytes,
stored checksum bytes, concatenated. -/
def File.bytes (f : File) : List Nat :=
  f.signature ++ f.comment ++ f.variable_length ++ f.var.bytes ++ f.checksum

/-- `File::comment_null_terminator_position`:
`self.comment.iter().position(|c| *c == 0)`. -/
def File.comment_null_terminator_position (f : File) : Option Nat :=
  iterPosition (fun c => c == 0) f.comment

/-- `File::comment_ending_spaces`:
`self.comment.iter().rev().take_while(|c| **c == b' ').count()`. -/
def File.comment_ending_spaces (f : File) : Nat :=
  (f.comment.reverse.takeWhile (fun c => c == 32)).length

/-- `File::comment(trim)`: decode prefix before the null terminator if one
exists (forcing `trim` off), else decode the whole region and optionally
trim trailing spaces.  (Named `comment_string` because `comment` is the
field.) -/
def File.comment_string (f : File) (trim : Bool) : Option (List Nat) :=
  match f.comment_null_terminator_position with
  | some pos => utf8Decode (f.comment.take pos)
  | none =>
    match utf8Decode f.comment with
    | none => none
    | some s => some (if trim then rtrimSpaces s else s)

/-- `File::comment_length`: null-terminator position if present, else
`COMMENT_SIZE` minus the count of ending spaces. -/
def File.comment_length (f : File) : Nat :=
  match f.comment_null_terminator_position with
  | some null_char_position => null_char_position
  | none => FILE_COMMENT_SIZE - f.comment_ending_spaces

/-- `File::is_comment_zero_terminated`: `self.comment.contains(&0)`. -/
def File.is_comment_zero_terminated (f : File) : Bool :=
  f.comment.contains 0

/-- `File::make_comment_zero_terminated`: no-op when already
zero-terminated or when there are no ending spaces; otherwise write `0`
at index `COMMENT_SIZE - ending_spaces`. -/
def File.make_comment_zero_terminated (f : File) : File :=
  if f.is_comment_zero_terminated then f
  else
    let ending_spaces := f.comment_ending_spaces
    if ending_spaces = 0 then f
    else
      { f with comment := f.comment.set (FILE_COMMENT_SIZE - ending_spaces) 0 }

/-- `File::make_comment_padded`: if a null terminator exists at `pad_start`,
overwrite indices `pad_start..COMMENT_SIZE` with spaces; else no-op. -/
def File.make_comment_padded (f : File) : File :=
  match f.comment_null_terminator_position with
  | none => f
  | some pad_start =>
    { f with
      comment :=
        f.comment.take pad_start ++
          List.replicate (FILE_COMMENT_SIZE - pad_start) 32 }

/-- `File::set_comment(comment, zero_terminated)`: write up to
`COMMENT_SIZE` bytes of the string's UTF-8 form; when the string runs out
early, either write one `0` and return (leaving the tail untouched) or pad
with spaces up to `COMMENT_SIZE`. -/
def File.set_comment (f : File) (s : List Nat) (zero_terminated : Bool) :
    File :=
  let bs := utf8Encode s
  if FILE_COMMENT_SIZE ≤ bs.length then
    { f with
      comment := bs.take FILE_COMMENT_SIZE ++ f.comment.drop FILE_COMMENT_SIZE }
  else if zero_terminated then
    { f with comment := bs ++ [0] ++ f.comment.drop (bs.length + 1) }
  else
    { f with
      comment :=
        bs ++ List.replicate (FILE_COMMENT_SIZE - bs.length) 32 ++
          f.comment.drop FILE_COMMENT_SIZE }

/-- `File::variable_length()`: the stored length bytes as a little-endian
`u16`.  (Named with a suffix because `variable_length` is the field.) -/
def File.variable_length_u16 (f : File) : Nat :=
  u16_from_le_bytes f.variable_length

/-- `File::checksum()`: the stored checksum bytes as a little-endian `u16`.
(Named with a suffix because `checksum` is the field.) -/
def File.checksum_u16 (f : File) : Nat :=
  u16_from_le_bytes f.checksum

/-! ## Read options and decoding

`ReadMode` is a `u32` newtype in the source with constructors
`error() = 0`, `fix() = 1`, `ignore() = 2`.  The whole-file decoder itself
is absent from the source (only its options and error-mode documentation
exist), so it is modelled from the spec below. -/

structure ReadMode where
  val : Nat
deriving DecidableEq, Repr

def ReadMode.error : ReadMode := ⟨0⟩

def ReadMode.fix : ReadMode := ⟨1⟩

def ReadMode.ignore : ReadMode := ⟨2⟩

structure VariableReadOptions where
deriving DecidableEq, Repr

/-- `FileReadOptions`: one mode per checkable field plus nested payload
options.  The derived `Default` uses `ReadMode::error()` everywhere. -/
structure FileReadOptions where
  signature : ReadMode
  variable_length : ReadMode
  var : VariableReadOptions
  checksum : ReadMode
deriving DecidableEq, Repr

/-- `FileReadOptions::default()`: every mode is `error`. -/
def FileReadOptions.default : FileReadOptions :=
  ⟨ReadMode.error, ReadMode.error, ⟨⟩, ReadMode.error⟩

/-- Modelled from the spec: the payload deserializer contract of §9
(`from_bytes(sequence of u8, options) -> Result<Payload, Error>`), absent
from the source.  With payloads identified with their serialized bytes it
accepts the byte slice verbatim. -/
def Variable.from_bytes (bs : List Nat) (_opts : VariableReadOptions) :
    Option Variable :=
  some ⟨bs⟩

/-- Modelled from the spec: whole-file `decode(bytes, options)` of §4.4,
absent from the source.  Reads the signature (validated per its mode),
the comment (raw copy), the declared length, the payload slice of exactly
the declared length (too-short input fails structurally), and the checksum
(validated per its mode). -/
def File.decode (bs : List Nat) (opts : FileReadOptions) : Option File :=
  if bs.length < HEADER_SIZE then none
  else
    let sig := bs.take FILE_SIGNATURE_SIZE
    let rest1 := bs.drop FILE_SIGNATURE_SIZE
    let comm := rest1.take FILE_COMMENT_SIZE
    let rest2 := rest1.drop FILE_COMMENT_SIZE
    let lenB := rest2.take FILE_VARIABLE_LENGTH_SIZE
    let rest3 := rest2.drop FILE_VARIABLE_LENGTH_SIZE
    let sigField : Option (List Nat) :=
      if opts.signature = ReadMode.error then
        if sig = SIGNATURE then some sig else none
      else if opts.signature = ReadMode.fix then some SIGNATURE
      else some sig
    match sigField with
    | none => none
    | some sig' =>
      let declared := u16_from_le_bytes lenB
      if rest3.length < declared + FILE_CHECKSUM_SIZE then none
      else
        match Variable.from_bytes (rest3.take declared) opts.var with
        | none => none
        | some v =>
          let lenB' :=
            if opts.variable_length = ReadMode.fix then
              u16_to_le_bytes v.bytes.length
            else lenB
          let csB := (rest3.drop declared).take FILE_CHECKSUM_SIZE
          let computed := v.bytes.sum % 0x10000
          let csField : Option (List Nat) :=
            if opts.checksum = ReadMode.error then
              if u16_from_le_bytes csB = computed then some csB else none
            else if opts.checksum = ReadMode.fix then
              some (u16_to_le_bytes computed)
            else some csB
          match csField with
          | none => none
          | some cs' => some ⟨sig', comm, lenB', v, cs'⟩

/-! ## Sample files used by counterexamples and witnesses -/

/-- A file whose stored length and checksum fields disagree with its
(empty) payload. -/
def cexFile : File :=
  ⟨SIGNATURE, List.replicate 42 32, [1, 0], ⟨[]⟩, [1, 0]⟩

/-- A file all of whose cross-field invariants hold: payload `[1, 2, 3]`,
stored length `3`, stored checksum `6`. -/
def wfFile : File :=
  ⟨SIGNATURE, List.replicate 42 32, [3, 0], ⟨[1, 2, 3]⟩, [6, 0]⟩

/-- A file whose comment region holds `"hi"` followed by a null terminator
and space padding. -/
def hiFile : File :=
  ⟨SIGNATURE, [104, 105, 0] ++ List.replicate 39 32, [3, 0], ⟨[1, 2, 3]⟩,
    [6, 0]⟩

/-! ## Helper lemmas: iterator position -/

theorem iterPosition_eq_none_iff (p : Nat → Bool) (l : List Nat) :
    iterPosition p l = none ↔ ∀ x ∈ l, p x = false := by
  induction l with
  | nil => simp [iterPosition]
  | cons b rest ih =>
    by_cases hb : p b
    · simp [iterPosition, hb]
    · simp [iterPosition, hb, ih]

theorem iterPosition_append_cons (p : Nat → Bool) (l₁ : List Nat) (x : Nat)
    (l₂ : List Nat) (h : ∀ y ∈ l₁, p y = false) (hx : p x = true) :
    iterPosition p (l₁ ++ x :: l₂) = some l₁.length := by
  induction l₁ with
  | nil => simp [iterPosition, hx]
  | cons b rest ih =>
    have hb : p b = false := h b (by simp)
    have ih' := ih (fun y hy => h y (by simp [hy]))
    simp [iterPosition, hb, ih']

theorem iterPosition_take (p : Nat → Bool) (l : List Nat) (i : Nat)
    (h : iterPosition p l = some i) : ∀ x ∈ l.take i, p x = false := by
  induction l generalizing i with
  | nil => simp
  | cons b rest ih =>
    cases hpb : p b with
    | true =>
      simp only [iterPosition, hpb, if_true] at h
      cases h
      simp
    | false =>
      simp [iterPosition, hpb] at h
      rcases h with ⟨j, hj, hji⟩
      subst hji
      intro x hx
      rw [List.take_succ_cons] at hx
      rcases List.mem_cons.mp hx with rfl | hx'
      · exact hpb
      · exact ih j hj x hx'

theorem iterPosition_set_zero (l : List Nat) (j : Nat)
    (h : ∀ x ∈ l, x ≠ 0) (hj : j < l.length) :
    iterPosition (fun c => c == 0) (l.set j 0) = some j := by
  induction l generalizing j with
  | nil => simp at hj
  | cons b rest ih =>
    cases j with
    | zero => simp [iterPosition]
    | succ j' =>
      have hb : (b == 0) = false := by
        simp [h b (by simp)]
      have hj' : j' < rest.length := by
        simpa using hj
      have ih' := ih j' (fun x hx => h x (by simp [hx])) hj'
      simp [iterPosition, hb, ih']

/-! ## Helper lemmas: trailing spaces, contains, 16-bit round trip -/

theorem takeWhile_length_le (p : Nat → Bool) (l : List Nat) :
    (l.takeWhile p).length ≤ l.length := by
  induction l with
  | nil => simp
  | cons b rest ih =>
    cases hpb : p b with
    | true => simpa [List.takeWhile_cons_of_pos hpb] using ih
    | false =>
      rw [List.takeWhile_cons_of_neg (p := p) (a := b) (l := rest)
        (by simp [hpb])]
      simp

theorem comment_ending_spaces_le (f : File) :
    f.comment_ending_spaces ≤ f.comment.length := by
  calc f.comment_ending_spaces ≤ f.comment.reverse.length :=
        takeWhile_length_le _ _
    _ = f.comment.length := by simp

theorem endingSpaces_append_replicate (l₁ : List Nat) (k : Nat)
    (h : l₁ = [] ∨ l₁.getLast? ≠ some 32) :
    (((l₁ ++ List.replicate k 32).reverse.takeWhile
      (fun c => c == 32)).length) = k := by
  rw [List.reverse_append, List.reverse_replicate]
  rw [List.takeWhile_append_of_pos
    (by intro a ha; simp [List.eq_of_mem_replicate ha])]
  have hrev : l₁.reverse.takeWhile (fun c => c == 32) = [] := by
    rcases h with h | h
    · simp [h]
    · cases hr : l₁.reverse with
      | nil => simp
      | cons a t =>
        have ha : l₁.getLast? = some a := by
          rw [← List.head?_reverse, hr]
          rfl
        have hne : (a == 32) = false := by
          have hne' : a ≠ 32 := fun hEq => h (hEq ▸ ha)
          simp [hne']
        rw [List.takeWhile_cons_of_neg (p := fun c => c == 32) (a := a)
          (l := t) (by simp [hne])]
  simp [hrev]

theorem contains_zero_eq_false_iff (l : List Nat) :
    l.contains 0 = false ↔ ∀ x ∈ l, x ≠ 0 := by
  induction l with
  | nil => simp
  | cons b rest ih =>
    constructor
    · intro h
      simp only [List.contains_cons, Bool.or_eq_false_iff] at h
      intro x hx
      rcases List.mem_cons.mp hx with rfl | hx'
      · intro hb0
        subst hb0
        simp at h
      · exact ih.mp h.2 x hx'
    · intro h
      simp only [List.contains_cons, Bool.or_eq_false_iff]
      refine ⟨?_, ih.mpr fun x hx => h x (by simp [hx])⟩
      have := h b (by simp)
      simp [beq_eq_false_iff_ne, this]
      omega

theorem u16_round_trip (n : Nat) (h : n < 0x10000) :
    u16_from_le_bytes (u16_to_le_bytes n) = n := by
  simp [u16_to_le_bytes, u16_from_le_bytes, List.getD]
  omega


/-! ## Helper lemmas: UTF-8 -/

theorem zero_not_mem_utf8EncodeCp (c : Nat) (hc : c ≠ 0) :
    0 ∉ utf8EncodeCp c := by
  unfold utf8EncodeCp
  split_ifs <;> simp <;> omega

theorem zero_not_mem_utf8Encode (s : List Nat) (h : ∀ c ∈ s, c ≠ 0) :
    0 ∉ utf8Encode s := by
  unfold utf8Encode
  intro hmem
  rcases List.mem_flatten.mp hmem with ⟨l, hl, h0⟩
  rcases List.mem_map.mp hl with ⟨c, hc, rfl⟩
  exact zero_not_mem_utf8EncodeCp c (h c hc) h0

theorem utf8EncodeCp_length_pos (c : Nat) :
    1 ≤ (utf8EncodeCp c).length := by
  unfold utf8EncodeCp
  split_ifs <;> simp

theorem utf8DecodeOne_encodeCp (c : Nat) (hc : ValidCp c)
    (rest : List Nat) :
    utf8DecodeOne (utf8EncodeCp c ++ rest) = some (c, rest) := by
  obtain ⟨hlt, hsur⟩ := hc
  by_cases h1 : c < 0x80
  · simp only [utf8EncodeCp, if_pos h1, List.cons_append, List.nil_append]
    simp only [utf8DecodeOne, if_pos h1]
  · by_cases h2 : c < 0x800
    · have e1 : ¬(0xC0 + c / 0x40 < 0x80) := by omega
      have e2 : ¬(0xC0 + c / 0x40 < 0xC2) := by omega
      have e3 : 0xC0 + c / 0x40 < 0xE0 := by omega
      have e4 : 0x80 ≤ 0x80 + c % 0x40 ∧ 0x80 + c % 0x40 < 0xC0 := by omega
      simp only [utf8EncodeCp, if_neg h1, if_pos h2, List.cons_append,
        List.nil_append]
      simp only [utf8DecodeOne, if_neg e1, if_neg e2, if_pos e3, if_pos e4]
      have hval :
          (0xC0 + c / 0x40 - 0xC0) * 0x40 + (0x80 + c % 0x40 - 0x80) = c := by
        omega
      rw [hval]
    · by_cases h3 : c < 0x10000
      · have e1 : ¬(0xE0 + c / 0x1000 < 0x80) := by omega
        have e2 : ¬(0xE0 + c / 0x1000 < 0xC2) := by omega
        have e3 : ¬(0xE0 + c / 0x1000 < 0xE0) := by omega
        have e4 : 0xE0 + c / 0x1000 < 0xF0 := by omega
        have e5 : (0x80 ≤ 0x80 + c / 0x40 % 0x40 ∧
            0x80 + c / 0x40 % 0x40 < 0xC0) ∧
            0x80 ≤ 0x80 + c % 0x40 ∧ 0x80 + c % 0x40 < 0xC0 := by omega
        simp only [utf8EncodeCp, if_neg h1, if_neg h2, if_pos h3,
          List.cons_append, List.nil_append]
        simp only [utf8DecodeOne, if_neg e1, if_neg e2, if_neg e3,
          if_pos e4, if_pos e5]
        have hval :
            (0xE0 + c / 0x1000 - 0xE0) * 0x1000 +
              (0x80 + c / 0x40 % 0x40 - 0x80) * 0x40 +
              (0x80 + c % 0x40 - 0x80) = c := by
          omega
        rw [hval]
        rw [if_pos ⟨by omega, hsur⟩]
      · have e1 : ¬(0xF0 + c / 0x40000 < 0x80) := by omega
        have e2 : ¬(0xF0 + c / 0x40000 < 0xC2) := by omega
        have e3 : ¬(0xF0 + c / 0x40000 < 0xE0) := by omega
        have e4 : ¬(0xF0 + c / 0x40000 < 0xF0) := by omega
        have e5 : 0xF0 + c / 0x40000 < 0xF5 := by omega
        have e6 : (0x80 ≤ 0x80 + c / 0x1000 % 0x40 ∧
            0x80 + c / 0x1000 % 0x40 < 0xC0) ∧
            (0x80 ≤ 0x80 + c / 0x40 % 0x40 ∧
              0x80 + c / 0x40 % 0x40 < 0xC0) ∧
            0x80 ≤ 0x80 + c % 0x40 ∧ 0x80 + c % 0x40 < 0xC0 := by omega
        simp only [utf8EncodeCp, if_neg h1, if_neg h2, if_neg h3,
          List.cons_append, List.nil_append]
        simp only [utf8DecodeOne, if_neg e1, if_neg e2, if_neg e3,
          if_neg e4, if_pos e5, if_pos e6]
        have hval :
            (0xF0 + c / 0x40000 - 0xF0) * 0x40000 +
              (0x80 + c / 0x1000 % 0x40 - 0x80) * 0x1000 +
              (0x80 + c / 0x40 % 0x40 - 0x80) * 0x40 +
              (0x80 + c % 0x40 - 0x80) = c := by
          omega
        rw [hval]
        rw [if_pos ⟨by omega, hlt⟩]

theorem utf8DecodeOne_some_length (l : List Nat) (c : Nat)
    (rest : List Nat) (h : utf8DecodeOne l = some (c, rest)) :
    rest.length < l.length := by
  match l with
  | [] => simp [utf8DecodeOne] at h
  | b :: t =>
    unfold utf8DecodeOne at h
    repeat' split at h
    all_goals simp_all
    all_goals omega

theorem utf8DecodeAux_congr : ∀ (fuel₁ fuel₂ : Nat) (l : List Nat),
    l.length ≤ fuel₁ → l.length ≤ fuel₂ →
    utf8DecodeAux fuel₁ l = utf8DecodeAux fuel₂ l := by
  intro fuel₁
  induction fuel₁ with
  | zero =>
    intro fuel₂ l h1 h2
    match l with
    | [] => cases fuel₂ <;> rfl
  | succ f ih =>
    intro fuel₂ l h1 h2
    match l with
    | [] => cases fuel₂ <;> rfl
    | b :: t =>
      match fuel₂, h2 with
      | f2 + 1, h2 =>
        simp only [utf8DecodeAux]
        cases hone : utf8DecodeOne (b :: t) with
        | none => rfl
        | some pr =>
          obtain ⟨c, rest'⟩ := pr
          have hlen := utf8DecodeOne_some_length _ _ _ hone
          simp only [List.length_cons] at h1 h2 hlen
          show Option.map (fun s => c :: s) (utf8DecodeAux f rest') =
            Option.map (fun s => c :: s) (utf8DecodeAux f2 rest')
          rw [ih f2 rest' (by omega) (by omega)]

theorem utf8DecodeAux_step (fuel : Nat) (b : Nat) (t : List Nat) :
    utf8DecodeAux (fuel + 1) (b :: t) =
      match utf8DecodeOne (b :: t) with
      | none => none
      | some (c, rest') => (utf8DecodeAux fuel rest').map (fun s => c :: s) := by
  simp only [utf8DecodeAux]

theorem utf8Decode_encodeCp_append (c : Nat) (hc : ValidCp c)
    (rest : List Nat) :
    utf8Decode (utf8EncodeCp c ++ rest) =
      (utf8Decode rest).map (fun s => c :: s) := by
  have hone := utf8DecodeOne_encodeCp c hc rest
  have hpos := utf8EncodeCp_length_pos c
  unfold utf8Decode
  match henc : utf8EncodeCp c ++ rest with
  | [] =>
    rw [henc] at hone
    simp [utf8DecodeOne] at hone
  | b :: t =>
    have hlen : (b :: t).length = (utf8EncodeCp c).length + rest.length := by
      rw [← henc]
      simp
    rw [henc] at hone
    have hl1 : (b :: t).length = ((b :: t).length - 1) + 1 := by
      simp
    rw [hl1, utf8DecodeAux_step, hone]
    have hcongr := utf8DecodeAux_congr ((b :: t).length - 1) rest.length rest
      (by simp at hlen ⊢; omega) (le_refl _)
    show Option.map (fun s => c :: s)
        (utf8DecodeAux ((b :: t).length - 1) rest) =
      Option.map (fun s => c :: s) (utf8DecodeAux rest.length rest)
    rw [hcongr]

theorem utf8Decode_encode_append (s rest : List Nat)
    (h : ∀ c ∈ s, ValidCp c) :
    utf8Decode (utf8Encode s ++ rest) =
      (utf8Decode rest).map (fun t => s ++ t) := by
  induction s with
  | nil =>
    simp only [utf8Encode, List.map_nil, List.flatten_nil, List.nil_append]
    cases utf8Decode rest <;> simp
  | cons c cs ih =>
    have hc := h c (by simp)
    have hcs : ∀ x ∈ cs, ValidCp x := fun x hx => h x (by simp [hx])
    simp only [utf8Encode, List.map_cons, List.flatten_cons,
      List.append_assoc]
    rw [utf8Decode_encodeCp_append c hc]
    have ih' := ih hcs
    simp only [utf8Encode] at ih'
    rw [ih']
    cases utf8Decode rest <;> simp

theorem utf8Decode_utf8Encode (s : List Nat) (h : ∀ c ∈ s, ValidCp c) :
    utf8Decode (utf8Encode s) = some s := by
  have h0 := utf8Decode_encode_append s [] h
  simp only [List.append_nil] at h0
  rw [h0]
  simp [utf8Decode, utf8DecodeAux]


theorem contains_zero_of_mem (l : List Nat) (h : 0 ∈ l) :
    l.contains 0 = true := by
  cases hc : l.contains 0 with
  | true => rfl
  | false => exact absurd rfl ((contains_zero_eq_false_iff l).mp hc 0 h)

theorem zero_mem_set_zero (l : List Nat) (j : Nat) (hj : j < l.length) :
    0 ∈ l.set j 0 := by
  have hj' : j < (l.set j 0).length := by simpa using hj
  have hget : (l.set j 0)[j] = 0 := List.getElem_set_self hj'
  have hmem := List.getElem_mem hj'
  rwa [hget] at hmem

theorem make_comment_padded_of_none (g : File)
    (h : iterPosition (fun c => c == 0) g.comment = none) :
    g.make_comment_padded = g := by
  unfold File.make_comment_padded File.comment_null_terminator_position
  rw [h]

theorem make_comment_padded_comment_of_some (g : File) (p : Nat)
    (h : iterPosition (fun c => c == 0) g.comment = some p) :
    (g.make_comment_padded).comment =
      g.comment.take p ++ List.replicate (FILE_COMMENT_SIZE - p) 32 := by
  unfold File.make_comment_padded File.comment_null_terminator_position
  rw [h]

theorem make_zero_terminated_of_contains_null (g : File)
    (h : g.is_comment_zero_terminated = true) :
    g.make_comment_zero_terminated = g := by
  unfold File.make_comment_zero_terminated
  rw [if_pos (by simp [h])]

theorem make_zero_terminated_of_no_trailing (g : File)
    (h1 : g.is_comment_zero_terminated = false)
    (h2 : g.comment_ending_spaces = 0) :
    g.make_comment_zero_terminated = g := by
  unfold File.make_comment_zero_terminated
  rw [if_neg (by simp [h1]), if_pos h2]

/-- The string of 41 `a` characters followed by `é` (U+00E9): its UTF-8
encoding is 43 bytes long and byte index 42 falls inside the two-byte
encoding of `é`. -/
def s9 : List Nat := List.replicate 41 0x61 ++ [0xE9]

/-! ## Claims -/

/-- C1 (counterexample): for `cexFile`, whose stored `variable_length`
field `[1, 0]` disagrees with its empty payload, the two bytes at offsets
`0x35..0x37` of `File::bytes` are not the little-endian encoding of the
payload's serialized length: the encoder emits the stored bytes. -/
theorem C1_counterexample :
    ¬((cexFile.bytes.drop 0x35).take 2 =
      u16_to_le_bytes cexFile.var.bytes.length) := by
  decide

/-- C1 (amended): for every well-formed `File`, the two bytes at offsets
`0x35..0x37` of `File::bytes` are exactly the stored `variable_length`
field bytes (they agree with the payload's length only when that stored
field is consistent with the payload). -/
theorem C1_encode_length_field_is_stored (f : File) (h : f.WF) :
    (f.bytes.drop 0x35).take 2 = f.variable_length := by
  obtain ⟨hs, _, hc, _, hv, _, _, _, _⟩ := h
  have hbytes : f.bytes =
      (f.signature ++ f.comment) ++
        (f.variable_length ++ (f.var.bytes ++ f.checksum)) := by
    simp [File.bytes]
  rw [hbytes,
    List.drop_left' (by rw [List.length_append, hs, hc]; decide),
    List.take_left' (by rw [hv]; decide)]

/-- C1 witness: the amended statement at the concrete file `wfFile`. -/
theorem C1_witness :
    (wfFile.bytes.drop 0x35).take 2 = wfFile.variable_length :=
  C1_encode_length_field_is_stored wfFile (by decide)

/-- C2 (counterexample): for `cexFile`, whose stored checksum `[1, 0]`
disagrees with the checksum computed from its (empty) payload, the final
two bytes of `File::bytes` are not the little-endian encoding of the
low 16 bits of the payload byte sum: the encoder emits the stored bytes. -/
theorem C2_counterexample :
    ¬(cexFile.bytes.drop (cexFile.bytes.length - 2) =
      u16_to_le_bytes (cexFile.var.bytes.sum % 0x10000)) := by
  decide

/-- C2 (amended): for every well-formed `File`, the final two bytes of
`File::bytes` are exactly the stored `checksum` field bytes (they agree
with the computed checksum only when the stored field is consistent with
the payload). -/
theorem C2_encode_checksum_is_stored (f : File) (h : f.WF) :
    f.bytes.drop (f.bytes.length - 2) = f.checksum := by
  obtain ⟨_, _, _, _, _, _, _, hcs, _⟩ := h
  have hlen :
      (f.signature ++ f.comment ++ f.variable_length ++ f.var.bytes ++
        f.checksum).length - 2 =
      (f.signature ++ f.comment ++ f.variable_length ++ f.var.bytes).length := by
    simp [hcs, FILE_CHECKSUM_SIZE]
    omega
  rw [File.bytes, hlen]
  exact List.drop_left _ _

/-- C2 witness: the amended statement at the concrete file `wfFile`. -/
theorem C2_witness :
    wfFile.bytes.drop (wfFile.bytes.length - 2) = wfFile.checksum :=
  C2_encode_checksum_is_stored wfFile (by decide)


/-- C3 (counterexample): for `cexFile`, whose comment region is 42 space
characters, the claimed conjunction fails: after
`make_comment_zero_terminated` the comment length is 0, not 41 (the null
byte is written at the first trailing space, index 0). -/
theorem C3_counterexample :
    ¬(cexFile.is_comment_zero_terminated = false ∧
      cexFile.comment_length = 0 ∧
      (cexFile.make_comment_zero_terminated).comment_length = 41) := by
  decide

/-- C3 (amended): for a `File` whose 42-byte comment region is entirely
spaces, `is_comment_zero_terminated` is `false`, `comment_length` is 0,
and `make_comment_zero_terminated` converts the first trailing space (the
byte at index 0) to a null byte, after which `comment_length` is still 0. -/
theorem C3_all_spaces_comment (f : File)
    (h : f.comment = List.replicate 42 32) :
    f.is_comment_zero_terminated = false ∧
    f.comment_length = 0 ∧
    (f.make_comment_zero_terminated).comment = 0 :: List.replicate 41 32 ∧
    (f.make_comment_zero_terminated).comment_length = 0 := by
  have h1 : f.is_comment_zero_terminated = false := by
    rw [File.is_comment_zero_terminated, h]
    decide
  have h2 : f.comment_length = 0 := by
    unfold File.comment_length File.comment_null_terminator_position
      File.comment_ending_spaces
    rw [h]
    decide
  have hk : f.comment_ending_spaces = 42 := by
    unfold File.comment_ending_spaces
    rw [h]
    decide
  have h3 : (f.make_comment_zero_terminated).comment =
      0 :: List.replicate 41 32 := by
    unfold File.make_comment_zero_terminated
    rw [if_neg (by simp [h1]), hk, if_neg (by decide)]
    rw [h]
    show (List.replicate 42 32).set (FILE_COMMENT_SIZE - 42) 0 =
      0 :: List.replicate 41 32
    decide
  refine ⟨h1, h2, h3, ?_⟩
  unfold File.comment_length File.comment_null_terminator_position
    File.comment_ending_spaces
  rw [h3]
  decide

/-- C3 witness: the amended statement at the concrete file `cexFile`. -/
theorem C3_witness :
    cexFile.is_comment_zero_terminated = false ∧
    cexFile.comment_length = 0 ∧
    (cexFile.make_comment_zero_terminated).comment =
      0 :: List.replicate 41 32 ∧
    (cexFile.make_comment_zero_terminated).comment_length = 0 :=
  C3_all_spaces_comment cexFile (by decide)

/-- C4: `make_comment_zero_terminated` case analysis: a region already
containing a null byte is unchanged; a region with no null byte and at
least one trailing space gets a null byte written exactly at index
`42 - k` where `k` counts the trailing spaces (a valid index); a region
with no null byte and no trailing space is unchanged. -/
theorem C4_make_comment_zero_terminated_cases (f : File) (h : f.WF) :
    (f.is_comment_zero_terminated = true →
      f.make_comment_zero_terminated = f) ∧
    (f.is_comment_zero_terminated = false → 0 < f.comment_ending_spaces →
      (f.make_comment_zero_terminated).comment =
        f.comment.set (42 - f.comment_ending_spaces) 0 ∧
      42 - f.comment_ending_spaces < 42) ∧
    (f.is_comment_zero_terminated = false → f.comment_ending_spaces = 0 →
      f.make_comment_zero_terminated = f) := by
  obtain ⟨_, _, hc, _, _, _, _, _, _⟩ := h
  refine ⟨?_, ?_, ?_⟩
  · intro h1
    unfold File.make_comment_zero_terminated
    rw [if_pos (by simp [h1])]
  · intro h1 h2
    constructor
    · unfold File.make_comment_zero_terminated
      rw [if_neg (by simp [h1]), if_neg (by omega)]
      show f.comment.set (FILE_COMMENT_SIZE - f.comment_ending_spaces) 0 =
        f.comment.set (42 - f.comment_ending_spaces) 0
      norm_num [FILE_COMMENT_SIZE]
    · have hle := comment_ending_spaces_le f
      rw [hc] at hle
      have h42 : FILE_COMMENT_SIZE = 42 := by decide
      omega
  · intro h1 h2
    unfold File.make_comment_zero_terminated
    rw [if_neg (by simp [h1]), if_pos h2]

/-- C4 witness: the statement at the concrete file `cexFile` (no null
byte, 42 trailing spaces, so the second case applies with k = 42). -/
theorem C4_witness :
    (cexFile.is_comment_zero_terminated = true →
      cexFile.make_comment_zero_terminated = cexFile) ∧
    (cexFile.is_comment_zero_terminated = false →
      0 < cexFile.comment_ending_spaces →
      (cexFile.make_comment_zero_terminated).comment =
        cexFile.comment.set (42 - cexFile.comment_ending_spaces) 0 ∧
      42 - cexFile.comment_ending_spaces < 42) ∧
    (cexFile.is_comment_zero_terminated = false →
      cexFile.comment_ending_spaces = 0 →
      cexFile.make_comment_zero_terminated = cexFile) :=
  C4_make_comment_zero_terminated_cases cexFile (by decide)


/-- C8: `comment_length` equals the position of the first null byte when
one is present (comment decomposes as `pre ++ 0 :: mid` with no null in
`pre`), and otherwise equals 42 minus the count of trailing spaces
(comment decomposes as `pre ++ replicate k 32` with `pre` not ending in a
space). -/
theorem C8_comment_length_characterization (f : File) (hWF : f.WF)
    (pre mid : List Nat) (k : Nat) :
    (f.comment = pre ++ 0 :: mid → 0 ∉ pre →
      f.comment_length = pre.length) ∧
    ((∀ b ∈ f.comment, b ≠ 0) → f.comment = pre ++ List.replicate k 32 →
      (pre = [] ∨ pre.getLast? ≠ some 32) →
      f.comment_length = 42 - k) := by
  constructor
  · intro hcm hpre
    have hpos : iterPosition (fun c => c == 0) f.comment = some pre.length := by
      rw [hcm]
      exact iterPosition_append_cons _ _ _ _
        (fun y hy => by
          have hy0 : y ≠ 0 := fun h0 => hpre (h0 ▸ hy)
          simp [hy0])
        (by decide)
    unfold File.comment_length File.comment_null_terminator_position
    rw [hpos]
  · intro hno hcm hlast
    have hpos : iterPosition (fun c => c == 0) f.comment = none :=
      (iterPosition_eq_none_iff _ _).mpr (fun x hx => by simp [hno x hx])
    have hes : f.comment_ending_spaces = k := by
      unfold File.comment_ending_spaces
      rw [hcm]
      exact endingSpaces_append_replicate pre k hlast
    unfold File.comment_length File.comment_null_terminator_position
    rw [hpos, hes]
    norm_num [FILE_COMMENT_SIZE]

/-- C8 witness: the statement at `hiFile` ("hi" then null terminator then
39 spaces): the first branch applies with pre = [104, 105], giving
comment_length = 2. -/
theorem C8_witness :
    (hiFile.comment = [104, 105] ++ 0 :: List.replicate 39 32 →
      0 ∉ ([104, 105] : List Nat) →
      hiFile.comment_length = ([104, 105] : List Nat).length) ∧
    ((∀ b ∈ hiFile.comment, b ≠ 0) →
      hiFile.comment = [104, 105] ++ List.replicate 39 32 →
      (([104, 105] : List Nat) = [] ∨
        ([104, 105] : List Nat).getLast? ≠ some 32) →
      hiFile.comment_length = 42 - 39) :=
  C8_comment_length_characterization hiFile (by decide)
    [104, 105] (List.replicate 39 32) 39

/-- C10: `make_comment_zero_terminated` never changes `comment_length`:
when the region has no null byte and k > 0 trailing spaces the null byte
lands at index `COMMENT_SIZE - k`, which is the old `comment_length`; in
every other case the region is untouched. -/
theorem C10_make_zero_terminated_preserves_comment_length (f : File)
    (h : f.WF) :
    (f.make_comment_zero_terminated).comment_length = f.comment_length := by
  obtain ⟨_, _, hc, _, _, _, _, _, _⟩ := h
  by_cases hz : f.is_comment_zero_terminated
  · unfold File.make_comment_zero_terminated
    rw [if_pos (by simp [hz])]
  · by_cases hk : f.comment_ending_spaces = 0
    · unfold File.make_comment_zero_terminated
      rw [if_neg (by simp [hz]), if_pos hk]
    · have hcontains : f.comment.contains 0 = false := by
        revert hz
        unfold File.is_comment_zero_terminated
        cases f.comment.contains 0 <;> simp
      have hno : ∀ x ∈ f.comment, x ≠ 0 :=
        (contains_zero_eq_false_iff _).mp hcontains
      have hle := comment_ending_spaces_le f
      rw [hc] at hle
      have hidx : FILE_COMMENT_SIZE - f.comment_ending_spaces <
          f.comment.length := by
        rw [hc]
        have hCS : FILE_COMMENT_SIZE = 42 := by decide
        omega
      have hposNew := iterPosition_set_zero f.comment
        (FILE_COMMENT_SIZE - f.comment_ending_spaces) hno hidx
      have hposOld : iterPosition (fun c => c == 0) f.comment = none :=
        (iterPosition_eq_none_iff _ _).mpr (fun x hx => by simp [hno x hx])
      have hmkc : (f.make_comment_zero_terminated).comment =
          f.comment.set (FILE_COMMENT_SIZE - f.comment_ending_spaces) 0 := by
        unfold File.make_comment_zero_terminated
        rw [if_neg (by simp [hz]), if_neg hk]
      unfold File.comment_length File.comment_null_terminator_position
      rw [hmkc, hposNew, hposOld]

/-- C10 witness: the statement at the concrete file `cexFile` (all-space
comment, so the null byte is written at index 0 = old comment_length). -/
theorem C10_witness :
    (cexFile.make_comment_zero_terminated).comment_length =
      cexFile.comment_length :=
  C10_make_zero_terminated_preserves_comment_length cexFile (by decide)


/-- C6: both comment-region conversions are idempotent: a second
`make_comment_padded` leaves the bytes of the first call unchanged, and
likewise for `make_comment_zero_terminated`. -/
theorem C6_conversions_idempotent (f : File) (h : f.WF) :
    (f.make_comment_padded).make_comment_padded = f.make_comment_padded ∧
    (f.make_comment_zero_terminated).make_comment_zero_terminated =
      f.make_comment_zero_terminated := by
  obtain ⟨_, _, hc, _, _, _, _, _, _⟩ := h
  constructor
  · cases hpos : iterPosition (fun c => c == 0) f.comment with
    | none =>
      have hmk := make_comment_padded_of_none f hpos
      rw [hmk]
      exact hmk
    | some p =>
      have hmkc := make_comment_padded_comment_of_some f p hpos
      have hpos2 : iterPosition (fun c => c == 0)
          (f.make_comment_padded).comment = none := by
        rw [hmkc]
        refine (iterPosition_eq_none_iff _ _).mpr ?_
        intro x hx
        rcases List.mem_append.mp hx with hx1 | hx2
        · exact iterPosition_take _ _ _ hpos x hx1
        · have hx32 := List.eq_of_mem_replicate hx2
          subst hx32
          decide
      exact make_comment_padded_of_none _ hpos2
  · by_cases hz : f.is_comment_zero_terminated
    · have hmk := make_zero_terminated_of_contains_null f hz
      rw [hmk]
      exact hmk
    · have hzf : f.is_comment_zero_terminated = false := by simpa using hz
      by_cases hk : f.comment_ending_spaces = 0
      · have hmk := make_zero_terminated_of_no_trailing f hzf hk
        rw [hmk]
        exact hmk
      · have hmkc : (f.make_comment_zero_terminated).comment =
            f.comment.set (FILE_COMMENT_SIZE - f.comment_ending_spaces) 0 := by
          unfold File.make_comment_zero_terminated
          rw [if_neg (by simp [hzf]), if_neg hk]
        have hidx : FILE_COMMENT_SIZE - f.comment_ending_spaces <
            f.comment.length := by
          have hle := comment_ending_spaces_le f
          rw [hc] at hle
          rw [hc]
          have h42 : FILE_COMMENT_SIZE = 42 := by decide
          omega
        have hmem := zero_mem_set_zero f.comment _ hidx
        have hzt2 : (f.make_comment_zero_terminated).is_comment_zero_terminated
            = true := by
          unfold File.is_comment_zero_terminated
          rw [hmkc]
          exact contains_zero_of_mem _ hmem
        exact make_zero_terminated_of_contains_null _ hzt2

/-- C6 witness: the statement at the concrete file `hiFile`, whose comment
region is null-terminated (the padding pass genuinely rewrites it). -/
theorem C6_witness :
    (hiFile.make_comment_padded).make_comment_padded =
      hiFile.make_comment_padded ∧
    (hiFile.make_comment_zero_terminated).make_comment_zero_terminated =
      hiFile.make_comment_zero_terminated :=
  C6_conversions_idempotent hiFile (by decide)


/-- C5 (counterexample): the string consisting of one NUL character has
UTF-8 length 1 ≤ 42, but after `set_comment` with `zero_terminated = true`
the region reads back as the empty string (the written NUL byte acts as
the terminator), not as the original string. -/
theorem C5_counterexample :
    ¬((cexFile.set_comment [0] true).comment_string false = some [0]) := by
  decide

/-- C5 (amended): for every string of valid non-NUL scalar values whose
UTF-8 encoding is at most 42 bytes, `set_comment(s, zero_terminated=true)`
followed by `comment(trim=false)` returns exactly `s`. -/
theorem C5_comment_round_trip (f : File) (s : List Nat) (hWF : f.WF)
    (hs : ∀ c ∈ s, ValidCp c ∧ c ≠ 0)
    (hlen : (utf8Encode s).length ≤ 42) :
    (f.set_comment s true).comment_string false = some s := by
  obtain ⟨_, _, hc, _, _, _, _, _, _⟩ := hWF
  have hvalid : ∀ c ∈ s, ValidCp c := fun c hc' => (hs c hc').1
  have hnz : ∀ c ∈ s, c ≠ 0 := fun c hc' => (hs c hc').2
  have hno0 : 0 ∉ utf8Encode s := zero_not_mem_utf8Encode s hnz
  have hdec : utf8Decode (utf8Encode s) = some s :=
    utf8Decode_utf8Encode s hvalid
  have hCS : FILE_COMMENT_SIZE = 42 := by decide
  by_cases h42 : FILE_COMMENT_SIZE ≤ (utf8Encode s).length
  · have hcomment : (f.set_comment s true).comment = utf8Encode s := by
      unfold File.set_comment
      rw [if_pos h42]
      show (utf8Encode s).take FILE_COMMENT_SIZE ++
        f.comment.drop FILE_COMMENT_SIZE = utf8Encode s
      have hdropnil : f.comment.drop FILE_COMMENT_SIZE = [] := by
        rw [← hc]
        exact List.drop_length _
      have htake : (utf8Encode s).take FILE_COMMENT_SIZE = utf8Encode s :=
        List.take_of_length_le (by omega)
      rw [hdropnil, htake, List.append_nil]
    have hpos : iterPosition (fun c => c == 0)
        ((f.set_comment s true).comment) = none := by
      rw [hcomment]
      exact (iterPosition_eq_none_iff _ _).mpr (fun x hx => by
        have hx0 : x ≠ 0 := fun h0 => hno0 (h0 ▸ hx)
        simp [hx0])
    unfold File.comment_string File.comment_null_terminator_position
    rw [hpos, hcomment, hdec]
    rfl
  · have hcomment : (f.set_comment s true).comment =
        utf8Encode s ++ [0] ++
          f.comment.drop ((utf8Encode s).length + 1) := by
      unfold File.set_comment
      rw [if_neg h42, if_pos rfl]
    have hpos : iterPosition (fun c => c == 0)
        ((f.set_comment s true).comment) = some (utf8Encode s).length := by
      rw [hcomment, List.append_assoc, List.singleton_append]
      exact iterPosition_append_cons _ _ _ _
        (fun y hy => by
          have hy0 : y ≠ 0 := fun h0 => hno0 (h0 ▸ hy)
          simp [hy0])
        (by decide)
    have htake : ((f.set_comment s true).comment).take
        (utf8Encode s).length = utf8Encode s := by
      rw [hcomment, List.append_assoc, List.singleton_append]
      exact List.take_left _ _
    unfold File.comment_string File.comment_null_terminator_position
    rw [hpos]
    show utf8Decode (((f.set_comment s true).comment).take
      (utf8Encode s).length) = some s
    rw [htake, hdec]

/-- C5 witness: the amended statement for the string "hello" written into
`cexFile`. -/
theorem C5_witness :
    (cexFile.set_comment [104, 101, 108, 108, 111] true).comment_string
      false = some [104, 101, 108, 108, 111] :=
  C5_comment_round_trip cexFile [104, 101, 108, 108, 111] (by decide)
    (by decide) (by decide)


/-- C9: the valid string `s9` (41 times `a` then `é`) encodes to more than
42 bytes, has no null byte among its first 42 bytes, and after
`set_comment` with either `zero_terminated` flag the comment region holds
invalid UTF-8, so `comment` returns an error for either `trim` value, even
though `set_comment` itself cannot fail. -/
theorem C9_truncation_leaves_invalid_utf8 :
    (∀ c ∈ s9, ValidCp c) ∧
    42 < (utf8Encode s9).length ∧
    0 ∉ (utf8Encode s9).take 42 ∧
    ∀ (f : File) (zt trim : Bool), f.WF →
      (f.set_comment s9 zt).comment_string trim = none := by
  refine ⟨by decide, by decide, by decide, ?_⟩
  intro f zt trim hWF
  obtain ⟨_, _, hc, _, _, _, _, _, _⟩ := hWF
  have h42 : FILE_COMMENT_SIZE ≤ (utf8Encode s9).length := by decide
  have hcomment : (f.set_comment s9 zt).comment =
      (utf8Encode s9).take FILE_COMMENT_SIZE := by
    unfold File.set_comment
    rw [if_pos h42]
    show (utf8Encode s9).take FILE_COMMENT_SIZE ++
      f.comment.drop FILE_COMMENT_SIZE =
      (utf8Encode s9).take FILE_COMMENT_SIZE
    have hdropnil : f.comment.drop FILE_COMMENT_SIZE = [] := by
      rw [← hc]
      exact List.drop_length _
    rw [hdropnil, List.append_nil]
  unfold File.comment_string File.comment_null_terminator_position
  rw [hcomment]
  cases trim <;> decide

/-- C9 witness: the truncated-corruption statement applied at the concrete
file `cexFile` with `zero_terminated = true` and `trim = false`. -/
theorem C9_witness :
    (cexFile.set_comment s9 true).comment_string false = none :=
  C9_truncation_leaves_invalid_utf8.2.2.2 cexFile true false (by decide)


/-- C7: decoding the encoded bytes of a well-formed `File` whose stored
signature, length and checksum fields satisfy the container invariants,
with default (all-`error`) read options, succeeds and returns the same
`File`. -/
theorem C7_decode_encode_round_trip (f : File) (h : f.WF)
    (hsig : f.signature = SIGNATURE)
    (hlen : f.variable_length = u16_to_le_bytes f.var.bytes.length)
    (hsz : f.var.bytes.length < 0x10000)
    (hck : f.checksum = u16_to_le_bytes (f.var.bytes.sum % 0x10000)) :
    File.decode f.bytes FileReadOptions.default = some f := by
  obtain ⟨hs, _, hc, _, hv, _, _, hcs, _⟩ := h
  simp only [Variable.bytes] at hlen hsz hck
  have hbytes : f.bytes =
      f.signature ++ (f.comment ++ (f.variable_length ++
        (f.var.payload ++ f.checksum))) := by
    simp [File.bytes, Variable.bytes]
  have e1 : f.bytes.take FILE_SIGNATURE_SIZE = f.signature := by
    rw [hbytes]
    exact List.take_left' hs
  have e2 : f.bytes.drop FILE_SIGNATURE_SIZE =
      f.comment ++ (f.variable_length ++ (f.var.payload ++ f.checksum)) := by
    rw [hbytes]
    exact List.drop_left' hs
  have e3 : (f.comment ++ (f.variable_length ++
      (f.var.payload ++ f.checksum))).take FILE_COMMENT_SIZE = f.comment :=
    List.take_left' hc
  have e4 : (f.comment ++ (f.variable_length ++
      (f.var.payload ++ f.checksum))).drop FILE_COMMENT_SIZE =
      f.variable_length ++ (f.var.payload ++ f.checksum) :=
    List.drop_left' hc
  have e5 : (f.variable_length ++
      (f.var.payload ++ f.checksum)).take FILE_VARIABLE_LENGTH_SIZE =
      f.variable_length :=
    List.take_left' hv
  have e6 : (f.variable_length ++
      (f.var.payload ++ f.checksum)).drop FILE_VARIABLE_LENGTH_SIZE =
      f.var.payload ++ f.checksum :=
    List.drop_left' hv
  have e7 : u16_from_le_bytes f.variable_length = f.var.payload.length := by
    rw [hlen]
    exact u16_round_trip _ hsz
  have e8 : ¬((f.var.payload ++ f.checksum).length <
      f.var.payload.length + FILE_CHECKSUM_SIZE) := by
    simp [hcs]
  have e9 : (f.var.payload ++ f.checksum).take f.var.payload.length =
      f.var.payload :=
    List.take_left _ _
  have e10 : (f.var.payload ++ f.checksum).drop f.var.payload.length =
      f.checksum :=
    List.drop_left _ _
  have e11 : f.checksum.take FILE_CHECKSUM_SIZE = f.checksum := by
    rw [← hcs]
    exact List.take_length _
  have e12 : ¬(f.bytes.length < HEADER_SIZE) := by
    rw [hbytes]
    simp only [List.length_append, hs, hc, hv, hcs]
    unfold HEADER_SIZE FILE_SIGNATURE_SIZE FILE_COMMENT_SIZE
      FILE_VARIABLE_LENGTH_SIZE FILE_CHECKSUM_SIZE
    omega
  have e13 : u16_from_le_bytes f.checksum = f.var.payload.sum % 0x10000 := by
    rw [hck]
    exact u16_round_trip _ (Nat.mod_lt _ (by norm_num))
  have hbm : ∀ bs : List Nat, Variable.bytes ⟨bs⟩ = bs := fun _ => rfl
  have m2 : ¬(ReadMode.error = ReadMode.fix) := by decide
  simp only [File.decode, FileReadOptions.default, e12, e1, e2, e3, e4,
    e5, e6, e7, e8, e9, e10, e11, e13, Variable.from_bytes, hbm, hsig,
    m2, eq_self_iff_true, if_true, if_false, ite_true, ite_false]
  rw [← hsig]

/-- C7 witness: the round trip at the concrete file `wfFile` (payload
`[1, 2, 3]`, stored length 3, stored checksum 6). -/
theorem C7_witness :
    File.decode wfFile.bytes FileReadOptions.default = some wfFile :=
  C7_decode_encode_round_trip wfFile (by decide) (by decide) (by decide)
    (by decide) (by decide)

end TiVars
